import Mathlib

set_option linter.unusedVariables false

/- Shallow embedding of the Family Chores Phase 2 application
   (src/phase2_chores_app.py).  Calendar dates inside the data store are
   absolute day indices of the proleptic Gregorian calendar, with day 0
   being 0001-01-01, a Monday. -/

def isLeap (y : Nat) : Bool :=
  (y % 4 == 0 && y % 100 != 0) || (y % 400 == 0)

def daysInMonth (y m : Nat) : Nat :=
  if m == 2 then (if isLeap y then 29 else 28)
  else if m == 4 || m == 6 || m == 9 || m == 11 then 30
  else 31

def daysBeforeMonth (y m : Nat) : Nat :=
  (List.range (m - 1)).foldl (fun acc i => acc + daysInMonth y (i + 1)) 0

/-- A calendar date (month 1..12, day 1..daysInMonth). -/
structure Date where
  year : Nat
  month : Nat
  day : Nat
  deriving DecidableEq, Repr

/-- Absolute day index of a date: 0001-01-01 has index 0. -/
def Date.toIndex (dt : Date) : Nat :=
  365 * (dt.year - 1) + (dt.year - 1) / 4 - (dt.year - 1) / 100 + (dt.year - 1) / 400
    + daysBeforeMonth dt.year dt.month + (dt.day - 1)

/-- Weekday of a date: 0 = Monday .. 6 = Sunday (0001-01-01 was a Monday). -/
def Date.weekday (dt : Date) : Nat := dt.toIndex % 7

/-- The weekday codes offered by the recurring-setup page
    (src lines 878-881), indexed by weekday, as character sequences. -/
def dayCodes : List (List Char) :=
  [['M'], ['T'], ['W'], ['T', 'H'], ['F'], ['S', 'A'], ['S', 'U']]

def weekdayCode (dt : Date) : List Char := dayCodes.getD dt.weekday []

/-- Model of the character sequence of a Python str.split on a comma:
    splitting the empty string yields one empty field. -/
def splitComma : List Char → List (List Char)
  | [] => [[]]
  | c :: rest =>
    if c = ',' then [] :: splitComma rest
    else
      match splitComma rest with
      | [] => [[c]]
      | p :: ps => (c :: p) :: ps

/-- Model of a Python comma join: the recurring-setup page stores the
    selected day codes as a comma-joined string (src line 883). -/
def joinComma : List (List Char) → List Char
  | [] => []
  | [s] => s
  | s :: rest => s ++ ',' :: joinComma rest

/-- The stored recurrence_days field written by the recurring-setup page
    for a selection of day codes. -/
def encodeRecurrenceDays (days : List (List Char)) : List Char := joinComma days

/-- Recurrence rule variants as offered by the recurring-setup page
    (src line 871); weekly/monthly anchors are stored explicitly per the
    spec, and a specific_days rule carries the stored comma-joined field. -/
inductive Recurrence where
  | none
  | daily
  | weekly (anchor : Nat)
  | monthly (anchorDay : Nat)
  | weekdays
  | specific_days (stored : List Char)
  deriving DecidableEq, Repr

/-- Modelled from the spec: the rule evaluation lives in the opaque stored
    procedure generate_recurring_assignments, absent from src/.  Section 4.1
    of the spec defines it variant by variant; monthly clamps its anchor day
    to the target month's last day; specific_days tests membership of the
    date's weekday code in the stored comma-separated day set. -/
def is_due (r : Recurrence) (dt : Date) : Bool :=
  match r with
  | .none => false
  | .daily => true
  | .weekly anchor => dt.weekday == anchor
  | .monthly anchorDay => dt.day == min anchorDay (daysInMonth dt.year dt.month)
  | .weekdays => dt.weekday < 5
  | .specific_days stored => decide (weekdayCode dt ∈ splitComma stored)

example : Date.weekday ⟨2024, 1, 1⟩ = 0 := by decide
example : is_due (.specific_days (encodeRecurrenceDays [['T'], ['T', 'H']])) ⟨2024, 1, 2⟩ = true := by decide
example : is_due (.specific_days (encodeRecurrenceDays [])) ⟨2024, 1, 2⟩ = false := by decide
example : is_due (.monthly 31) ⟨2024, 4, 30⟩ = true := by decide

/- The data model: rows of the five entity tables (people, chores,
   assignments, completions, parental_reviews), and the mutable store. -/

inductive Role where
  | parent
  | child
  deriving DecidableEq, Repr

structure Person where
  id : Nat
  name : String
  role : Role
  deriving DecidableEq, Repr

structure Chore where
  id : Nat
  room : String
  task : String
  estimated_time : Nat
  rule : Recurrence
  deriving DecidableEq, Repr

structure Assignment where
  id : Nat
  chore_id : Nat
  person_id : Option Nat
  assigned_date : Nat
  due_date : Nat
  deriving DecidableEq, Repr

structure Completion where
  id : Nat
  assignment_id : Nat
  actual_minutes : Nat
  deriving DecidableEq, Repr

structure Review where
  completion_id : Nat
  reviewed_by_person_id : Nat
  approved : Bool
  deriving DecidableEq, Repr

/-- The persistent state: the entity tables plus the auto-increment
    counters handing out fresh row ids. -/
structure Store where
  people : List Person
  assignments : List Assignment
  completions : List Completion
  reviews : List Review
  nextAssignmentId : Nat
  nextCompletionId : Nat
  deriving DecidableEq, Repr

/- Store operations.  Each takes a dbUp flag modelling whether
   get_db_connection (src lines 28-42) obtained a connection; on a missing
   connection every mutator returns False with the store untouched and every
   query returns an empty list, exactly as the source functions do. -/

/-- Embeds assign_chore (src lines 133-165): default the due date to the
    assigned date, then check-then-update-or-insert keyed on
    (chore_id, assigned_date).  The source performs no due-date validation
    and no completion check. -/
def assign_chore : Bool → Store → Nat → Nat → Nat → Option Nat → Bool × Store
  | false, st, _, _, _, _ => (false, st)
  | true, st, chore_id, person_id, assigned_date, due_date =>
    let due := due_date.getD assigned_date
    if ∃ a ∈ st.assignments, a.chore_id = chore_id ∧ a.assigned_date = assigned_date then
      (true, { st with assignments := st.assignments.map (fun a =>
        if a.chore_id = chore_id ∧ a.assigned_date = assigned_date then
          { a with person_id := some person_id, due_date := due }
        else a) })
    else
      (true, { st with
        assignments := st.assignments
          ++ [⟨st.nextAssignmentId, chore_id, some person_id, assigned_date, due⟩],
        nextAssignmentId := st.nextAssignmentId + 1 })

/-- Embeds mark_chore_complete (src lines 167-196): a bare INSERT into
    completions returning a boolean.  The completions table itself is not
    under src/; its unique key on assignment_id and its foreign key to
    assignments are modelled from the spec (sections 3 and 5), and a failed
    INSERT is caught and surfaced as the boolean False, the store unchanged. -/
def mark_chore_complete : Bool → Store → Nat → Nat → Bool × Store
  | false, st, _, _ => (false, st)
  | true, st, assignment_id, actual_minutes =>
    if ∃ c ∈ st.completions, c.assignment_id = assignment_id then (false, st)
    else if ∃ a ∈ st.assignments, a.id = assignment_id then
      (true, { st with
        completions := st.completions
          ++ [⟨st.nextCompletionId, assignment_id, actual_minutes⟩],
        nextCompletionId := st.nextCompletionId + 1 })
    else (false, st)

/-- Embeds add_parental_review (src lines 198-216): a bare INSERT into
    parental_reviews returning a boolean.  The source checks neither the
    reviewer's role nor anything else about the reviewer.  The table's
    unique key on completion_id and its foreign key to completions are
    modelled from the spec (sections 3 and 5) as for completions. -/
def add_parental_review : Bool → Store → Nat → Nat → Bool → Bool × Store
  | false, st, _, _, _ => (false, st)
  | true, st, completion_id, reviewed_by_person_id, approved =>
    if ∃ r ∈ st.reviews, r.completion_id = completion_id then (false, st)
    else if ∃ c ∈ st.completions, c.id = completion_id then
      (true, { st with
        reviews := st.reviews ++ [⟨completion_id, reviewed_by_person_id, approved⟩] })
    else (false, st)

/-- Embeds get_all_people (src lines 44-55): returns the people table, or
    an empty list when no connection is obtained. -/
def get_all_people : Bool → Store → List Person
  | false, _ => []
  | true, st => st.people

/-- Embeds the reviewer dropdown of parental_review_page (src line 607):
    the candidates are the people whose NAME is Dad or Mom, with no look at
    any stored role. -/
def reviewerCandidates (people : List Person) : List Person :=
  people.filter (fun p => p.name == "Dad" || p.name == "Mom")

/- The assignment generator. -/

/-- Modelled from the spec: the body of the stored procedure
    generate_recurring_assignments is absent from src/ (the Python function
    at src lines 117-131 only calls it).  Section 4.2 of the spec: if no
    assignment exists for (chore, date), create one whose assignee defaults
    to the previous day's assignee for that chore, else null; if one
    exists, leave it untouched. -/
def upsertGenerated (st : Store) (cid di : Nat) : Store :=
  if ∃ a ∈ st.assignments, a.chore_id = cid ∧ a.assigned_date = di then st
  else
    let prev := st.assignments.find? (fun a => decide (a.chore_id = cid ∧ a.assigned_date + 1 = di))
    { st with
      assignments := st.assignments
        ++ [⟨st.nextAssignmentId, cid, prev.bind (fun a => a.person_id), di, di⟩],
      nextAssignmentId := st.nextAssignmentId + 1 }

/-- Modelled from the spec: one generator step handles one catalog chore,
    upserting exactly when its rule makes the target date due. -/
def generateStep (d : Date) (st : Store) (c : Chore) : Store :=
  if is_due c.rule d then upsertGenerated st c.id d.toIndex else st

/-- Modelled from the spec: generation for a target date walks the chore
    catalog and upserts the due ones (spec section 4.2); the Python wrapper
    (src lines 117-131) returns True on success and False when the
    connection is missing. -/
def generate_recurring_assignments : Bool → List Chore → Store → Date → Bool × Store
  | false, _, st, _ => (false, st)
  | true, catalog, st, d => (true, catalog.foldl (generateStep d) st)

/-- Runs generation n times in a row against a live connection. -/
def genTimes (catalog : List Chore) (d : Date) : Nat → Store → Store
  | 0, st => st
  | n + 1, st => genTimes catalog d n (generate_recurring_assignments true catalog st d).2

/- Sequences of mutating operations, for the uniqueness invariant. -/

inductive Op where
  | gen (catalog : List Chore) (d : Date)
  | asg (chore_id person_id assigned_date : Nat) (due_date : Option Nat)

def applyOp (st : Store) : Op → Store
  | .gen catalog d => (generate_recurring_assignments true catalog st d).2
  | .asg c p ad dd => (assign_chore true st c p ad dd).2

def applyOps (st : Store) (ops : List Op) : Store := ops.foldl applyOp st

/-- Two assignment rows do not collide on the (chore, assigned date) key. -/
def keyDistinct (a b : Assignment) : Prop :=
  a.chore_id ≠ b.chore_id ∨ a.assigned_date ≠ b.assigned_date

/-- The store holds at most one assignment row per (chore, assigned date). -/
def uniqueChoreDate (st : Store) : Prop := st.assignments.Pairwise keyDistinct

/- The individual report (src lines 239-266). -/

/-- One output row of the individual report; completion_rate is carried in
    tenths of a percent so ROUND(x, 1) stays exact. -/
structure ReportRow where
  date : Nat
  assigned : Nat
  completed : Nat
  rate_tenths : Nat
  deriving DecidableEq, Repr

/-- Rounds n / d to the nearest integer, halves away from zero, as MySQL
    ROUND does on the nonnegative counts involved. -/
def roundHalfUpDiv (n d : Nat) : Nat := (2 * n + d) / (2 * d)

/-- The LEFT JOIN to completions marks a row completed exactly when some
    completion references the assignment. -/
def completedOn (st : Store) (a : Assignment) : Bool :=
  decide (∃ c ∈ st.completions, c.assignment_id = a.id)

/-- The distinct values of a list in last-occurrence order, modelling the
    grouping keys produced by GROUP BY. -/
def dedupDates : List Nat → List Nat
  | [] => []
  | d :: rest => if d ∈ rest then dedupDates rest else d :: dedupDates rest

/-- Embeds the query of get_individual_report (src lines 239-266): rows of
    one person's assignments in the inclusive date range, grouped by
    assigned date; per group it counts distinct assignments and distinct
    completions and computes ROUND(completed * 100.0 / assigned, 1).
    Groups exist only for dates that have at least one assignment row. -/
def get_individual_report : Bool → Store → Nat → Nat → Nat → List ReportRow
  | false, _, _, _, _ => []
  | true, st, pid, startD, endD =>
    let rows := st.assignments.filter (fun a =>
      decide (a.person_id = some pid ∧ startD ≤ a.assigned_date ∧ a.assigned_date ≤ endD))
    (dedupDates (rows.map (fun a => a.assigned_date))).map (fun d =>
      let dayRows := rows.filter (fun a => decide (a.assigned_date = d))
      let assigned := dayRows.length
      let completed := (dayRows.filter (completedOn st)).length
      ⟨d, assigned, completed, roundHalfUpDiv (1000 * completed) assigned⟩)

/- The Copy-from-Yesterday button (src lines 343-361). -/

/-- Fresh copies of the given rows, consecutive fresh ids, with assigned
    and due date both set to the selected date (src lines 350-356). -/
def mkCopies (nextId sel : Nat) : List Assignment → List Assignment
  | [] => []
  | a :: rest => ⟨nextId, a.chore_id, a.person_id, sel, sel⟩ :: mkCopies (nextId + 1) sel rest

/-- Embeds the Copy-from-Yesterday handler (src lines 343-361): DELETE all
    assignment rows of the selected date, then INSERT one copy of every row
    whose assigned date is the previous day, both dates set to the selected
    date.  The DELETE carries no condition on completions. -/
def copy_from_yesterday : Bool → Store → Nat → Store
  | false, st, _ => st
  | true, st, sel =>
    let remaining := st.assignments.filter (fun a => decide (a.assigned_date ≠ sel))
    let src := remaining.filter (fun a => decide (a.assigned_date = sel - 1))
    { st with
      assignments := remaining ++ mkCopies st.nextAssignmentId sel src,
      nextAssignmentId := st.nextAssignmentId + src.length }

example :
    get_individual_report true ⟨[], [⟨0, 1, some 1, 5, 5⟩, ⟨1, 2, some 1, 5, 5⟩],
      [⟨0, 0, 12⟩], [], 2, 1⟩ 1 0 9 = [⟨5, 2, 1, 500⟩] := by decide

/- Lemmas about the split / join model of the stored day set. -/

theorem splitComma_nocomma (s : List Char) (h : ',' ∉ s) : splitComma s = [s] := by
  induction s with
  | nil => rfl
  | cons c rest ih =>
    have hc : ¬ c = ',' := by intro hc; exact h (by simp [hc])
    have hr : ',' ∉ rest := fun hm => h (List.mem_cons_of_mem _ hm)
    simp [splitComma, hc, ih hr]

theorem splitComma_append (s t : List Char) (h : ',' ∉ s) :
    splitComma (s ++ ',' :: t) = s :: splitComma t := by
  induction s with
  | nil => simp [splitComma]
  | cons c rest ih =>
    have hc : ¬ c = ',' := by intro hc; exact h (by simp [hc])
    have hr : ',' ∉ rest := fun hm => h (List.mem_cons_of_mem _ hm)
    simp [splitComma, hc, ih hr]

theorem splitComma_joinComma : ∀ (d : List Char) (rest : List (List Char)),
    (∀ s ∈ d :: rest, ',' ∉ s) → splitComma (joinComma (d :: rest)) = d :: rest := by
  intro d rest
  induction rest generalizing d with
  | nil => intro h; exact splitComma_nocomma d (h d (by simp))
  | cons r rs ih =>
    intro h
    have hd : joinComma (d :: r :: rs) = d ++ ',' :: joinComma (r :: rs) := rfl
    rw [hd, splitComma_append d _ (h d (by simp))]
    rw [ih r (fun s hs => h s (List.mem_cons_of_mem _ hs))]

theorem weekdayCode_mem (dt : Date) : weekdayCode dt ∈ dayCodes := by
  have h7 : dt.weekday < 7 := Nat.mod_lt _ (by decide)
  have h7l : dt.weekday < dayCodes.length := by simpa [dayCodes] using h7
  rw [weekdayCode, List.getD_eq_getElem dayCodes [] h7l]
  exact List.getElem_mem h7l

theorem weekdayCode_ne_nil (dt : Date) : weekdayCode dt ≠ [] := by
  have hne : ∀ s ∈ dayCodes, s ≠ ([] : List Char) := by decide
  exact hne _ (weekdayCode_mem dt)

/-- C9: for every specific_days rule stored by the setup page from a
    selection of weekday codes, and every calendar date, is_due holds iff
    the date's weekday code is a member of the selected day set; a rule
    stored from the empty selection (the stored field is the empty string,
    which splits back to one empty field matching no weekday code) is never
    due on any date, and evaluation is total on it rather than an error. -/
theorem is_due_specific_days_iff (days : List (List Char)) (dt : Date)
    (h : ∀ s ∈ days, s ∈ dayCodes) :
    is_due (.specific_days (encodeRecurrenceDays days)) dt = true ↔ weekdayCode dt ∈ days := by
  cases days with
  | nil =>
    have hsplit : splitComma (joinComma []) = [[]] := rfl
    simp only [is_due, encodeRecurrenceDays, hsplit, decide_eq_true_eq,
      List.mem_singleton, List.not_mem_nil, iff_false]
    exact weekdayCode_ne_nil dt
  | cons d rest =>
    have hcf : ∀ s ∈ d :: rest, ',' ∉ s := by
      intro s hs
      have hall : ∀ s ∈ dayCodes, ',' ∉ s := by decide
      exact hall s (h s hs)
    simp [is_due, encodeRecurrenceDays, splitComma_joinComma d rest hcf]

/-- Concrete instance of is_due_specific_days_iff: a {Tue, Thu} rule is due
    on Tuesday 2024-01-02, and a rule stored from the empty selection is
    not due on that date. -/
theorem is_due_specific_days_iff_witness :
    (is_due (.specific_days (encodeRecurrenceDays [['T'], ['T', 'H']])) ⟨2024, 1, 2⟩ = true
      ↔ weekdayCode ⟨2024, 1, 2⟩ ∈ [['T'], ['T', 'H']])
    ∧ (is_due (.specific_days (encodeRecurrenceDays [])) ⟨2024, 1, 2⟩ = true
      ↔ weekdayCode ⟨2024, 1, 2⟩ ∈ ([] : List (List Char))) :=
  ⟨is_due_specific_days_iff [['T'], ['T', 'H']] ⟨2024, 1, 2⟩ (by decide),
   is_due_specific_days_iff [] ⟨2024, 1, 2⟩ (by decide)⟩

/- Lemmas about the generator upsert. -/

theorem upsertGenerated_keeps (st : Store) (cid di c d : Nat)
    (h : ∃ a ∈ st.assignments, a.chore_id = c ∧ a.assigned_date = d) :
    ∃ a ∈ (upsertGenerated st cid di).assignments, a.chore_id = c ∧ a.assigned_date = d := by
  by_cases hex : ∃ a ∈ st.assignments, a.chore_id = cid ∧ a.assigned_date = di
  · unfold upsertGenerated; rw [if_pos hex]; exact h
  · unfold upsertGenerated; rw [if_neg hex]
    obtain ⟨a, ha, hk⟩ := h
    exact ⟨a, List.mem_append_left _ ha, hk⟩

theorem upsertGenerated_adds (st : Store) (cid di : Nat) :
    ∃ a ∈ (upsertGenerated st cid di).assignments,
      a.chore_id = cid ∧ a.assigned_date = di := by
  by_cases hex : ∃ a ∈ st.assignments, a.chore_id = cid ∧ a.assigned_date = di
  · unfold upsertGenerated; rw [if_pos hex]; exact hex
  · unfold upsertGenerated; rw [if_neg hex]
    exact ⟨_, List.mem_append_right _ (List.mem_singleton_self _), rfl, rfl⟩

theorem upsertGenerated_noop (st : Store) (cid di : Nat)
    (h : ∃ a ∈ st.assignments, a.chore_id = cid ∧ a.assigned_date = di) :
    upsertGenerated st cid di = st := by
  unfold upsertGenerated; rw [if_pos h]

theorem generateStep_keeps (d : Date) (st : Store) (ch : Chore) (c dd : Nat)
    (h : ∃ a ∈ st.assignments, a.chore_id = c ∧ a.assigned_date = dd) :
    ∃ a ∈ (generateStep d st ch).assignments, a.chore_id = c ∧ a.assigned_date = dd := by
  unfold generateStep
  by_cases hdue : is_due ch.rule d = true
  · rw [if_pos hdue]; exact upsertGenerated_keeps _ _ _ _ _ h
  · rw [if_neg hdue]; exact h

theorem genFold_keeps (d : Date) (l : List Chore) (st : Store) (c dd : Nat)
    (h : ∃ a ∈ st.assignments, a.chore_id = c ∧ a.assigned_date = dd) :
    ∃ a ∈ (l.foldl (generateStep d) st).assignments,
      a.chore_id = c ∧ a.assigned_date = dd := by
  induction l generalizing st with
  | nil => exact h
  | cons ch rest ih => exact ih _ (generateStep_keeps _ _ _ _ _ h)

theorem genFold_adds (d : Date) (l : List Chore) (st : Store) (ch : Chore)
    (hmem : ch ∈ l) (hdue : is_due ch.rule d = true) :
    ∃ a ∈ (l.foldl (generateStep d) st).assignments,
      a.chore_id = ch.id ∧ a.assigned_date = d.toIndex := by
  induction l generalizing st with
  | nil => cases hmem
  | cons c0 rest ih =>
    rcases List.mem_cons.mp hmem with h | h
    · subst h
      have hadd : ∃ a ∈ (generateStep d st ch).assignments,
          a.chore_id = ch.id ∧ a.assigned_date = d.toIndex := by
        unfold generateStep; rw [if_pos hdue]; exact upsertGenerated_adds _ _ _
      exact genFold_keeps d rest (generateStep d st ch) _ _ hadd
    · exact ih _ h

theorem genFold_noop (d : Date) (l : List Chore) (st : Store)
    (h : ∀ ch ∈ l, is_due ch.rule d = true →
      ∃ a ∈ st.assignments, a.chore_id = ch.id ∧ a.assigned_date = d.toIndex) :
    l.foldl (generateStep d) st = st := by
  induction l with
  | nil => rfl
  | cons c0 rest ih =>
    have hstep : generateStep d st c0 = st := by
      unfold generateStep
      by_cases hdue : is_due c0.rule d = true
      · rw [if_pos hdue]; exact upsertGenerated_noop _ _ _ (h c0 (by simp) hdue)
      · rw [if_neg hdue]
    have hfold : (c0 :: rest).foldl (generateStep d) st = rest.foldl (generateStep d) st := by
      rw [List.foldl_cons, hstep]
    rw [hfold, ih (fun ch hm => h ch (by simp [hm]))]

theorem generate_twice (catalog : List Chore) (d : Date) (st : Store) :
    catalog.foldl (generateStep d) (catalog.foldl (generateStep d) st)
      = catalog.foldl (generateStep d) st :=
  genFold_noop d catalog _ (fun ch hm hdue => genFold_adds d catalog st ch hm hdue)

/-- C1: generation is idempotent.  Running generation for a target date
    n + 1 times against a live store leaves exactly the store that a single
    run leaves, for every chore catalog, every date and every starting
    store: the second and later runs find every due chore already assigned
    and upsert nothing. -/
theorem generate_idempotent (catalog : List Chore) (d : Date) (st : Store) (n : Nat) :
    genTimes catalog d (n + 1) st = genTimes catalog d 1 st := by
  induction n generalizing st with
  | zero => rfl
  | succ m ih =>
    have h1 : genTimes catalog d (m + 2) st
        = genTimes catalog d (m + 1) ((generate_recurring_assignments true catalog st d).2) := rfl
    have h2 : ∀ s, genTimes catalog d 1 s = (generate_recurring_assignments true catalog s d).2 :=
      fun s => rfl
    have h3 : ∀ s, (generate_recurring_assignments true catalog s d).2
        = catalog.foldl (generateStep d) s := fun s => rfl
    rw [h1, ih, h2, h2]
    simp only [h3]
    exact generate_twice catalog d st

/- Preservation of the (chore, assigned date) uniqueness invariant. -/

theorem keyDistinct_of_not_match (c ad : Nat) (a x : Assignment)
    (hx : x.chore_id = c ∧ x.assigned_date = ad)
    (hna : ¬ (a.chore_id = c ∧ a.assigned_date = ad)) : keyDistinct a x := by
  rcases Decidable.not_and_iff_or_not.mp hna with h | h
  · exact Or.inl (by rw [hx.1]; exact h)
  · exact Or.inr (by rw [hx.2]; exact h)

theorem uniqueChoreDate_assign (st : Store) (c p ad : Nat) (dd : Option Nat)
    (h : uniqueChoreDate st) : uniqueChoreDate (assign_chore true st c p ad dd).2 := by
  simp only [assign_chore]
  by_cases hex : ∃ a ∈ st.assignments, a.chore_id = c ∧ a.assigned_date = ad
  · rw [if_pos hex]
    unfold uniqueChoreDate at *
    rw [List.pairwise_map]
    refine h.imp ?_
    intro a b hab
    have hkey : ∀ y : Assignment,
        ((if y.chore_id = c ∧ y.assigned_date = ad then
          { y with person_id := some p, due_date := dd.getD ad } else y) : Assignment).chore_id
          = y.chore_id
        ∧ ((if y.chore_id = c ∧ y.assigned_date = ad then
          { y with person_id := some p, due_date := dd.getD ad } else y) : Assignment).assigned_date
          = y.assigned_date := by
      intro y
      by_cases hy : y.chore_id = c ∧ y.assigned_date = ad
      · rw [if_pos hy]; exact ⟨rfl, rfl⟩
      · rw [if_neg hy]; exact ⟨rfl, rfl⟩
    unfold keyDistinct at *
    rw [(hkey a).1, (hkey a).2, (hkey b).1, (hkey b).2]
    exact hab
  · rw [if_neg hex]
    unfold uniqueChoreDate at *
    rw [List.pairwise_append]
    refine ⟨h, List.pairwise_singleton _ _, ?_⟩
    intro a ha x hx
    rw [List.mem_singleton] at hx
    subst hx
    refine keyDistinct_of_not_match c ad a _ ⟨rfl, rfl⟩ ?_
    intro hk
    exact hex ⟨a, ha, hk⟩

theorem uniqueChoreDate_upsertGenerated (st : Store) (cid di : Nat)
    (h : uniqueChoreDate st) : uniqueChoreDate (upsertGenerated st cid di) := by
  unfold upsertGenerated
  by_cases hex : ∃ a ∈ st.assignments, a.chore_id = cid ∧ a.assigned_date = di
  · rw [if_pos hex]; exact h
  · rw [if_neg hex]
    unfold uniqueChoreDate at *
    rw [List.pairwise_append]
    refine ⟨h, List.pairwise_singleton _ _, ?_⟩
    intro a ha x hx
    rw [List.mem_singleton] at hx
    subst hx
    refine keyDistinct_of_not_match cid di a _ ⟨rfl, rfl⟩ ?_
    intro hk
    exact hex ⟨a, ha, hk⟩

theorem uniqueChoreDate_generateStep (d : Date) (st : Store) (ch : Chore)
    (h : uniqueChoreDate st) : uniqueChoreDate (generateStep d st ch) := by
  unfold generateStep
  by_cases hdue : is_due ch.rule d = true
  · rw [if_pos hdue]; exact uniqueChoreDate_upsertGenerated _ _ _ h
  · rw [if_neg hdue]; exact h

theorem uniqueChoreDate_genFold (d : Date) (l : List Chore) (st : Store)
    (h : uniqueChoreDate st) : uniqueChoreDate (l.foldl (generateStep d) st) := by
  induction l generalizing st with
  | nil => exact h
  | cons ch rest ih => exact ih _ (uniqueChoreDate_generateStep d st ch h)

theorem uniqueChoreDate_applyOp (st : Store) (op : Op)
    (h : uniqueChoreDate st) : uniqueChoreDate (applyOp st op) := by
  cases op with
  | gen catalog d => exact uniqueChoreDate_genFold d catalog st h
  | asg c p ad dd => exact uniqueChoreDate_assign st c p ad dd h

/-- C2: the (chore, assigned date) uniqueness invariant is preserved by
    every sequence of generate and assign operations: starting from a store
    with at most one assignment row per (chore, assigned date), any mix of
    generations and manual assignments again leaves at most one row per
    pair, since assigning to an already-assigned pair updates the matching
    rows in place and only a missing pair triggers an insert. -/
theorem unique_after_ops (st : Store) (ops : List Op) (h : uniqueChoreDate st) :
    uniqueChoreDate (applyOps st ops) := by
  induction ops generalizing st with
  | nil => exact h
  | cons op rest ih => exact ih _ (uniqueChoreDate_applyOp st op h)

/-- Concrete instance of unique_after_ops: from the empty store, a manual
    assignment, a generation over a daily chore, and a re-assignment of the
    same (chore, date) leave a duplicate-free store. -/
theorem unique_after_ops_witness :
    uniqueChoreDate (applyOps ⟨[], [], [], [], 0, 0⟩
      [.asg 1 1 738885 Option.none,
       .gen [⟨1, "Kitchen", "Dishes", 15, .daily⟩] ⟨2024, 1, 1⟩,
       .asg 1 2 738885 (some 738886)]) :=
  unique_after_ops _ _ (by simp [uniqueChoreDate])

/-- C5 counterexample: the store holds assignment 0 for chore 1 on day 10,
    person 1, already completed by completion 0; assigning person 2 to the
    same (chore, date) is not blocked: the call succeeds and the person
    changes from 1 to 2. -/
theorem assign_after_completion_counterexample :
    assign_chore true ⟨[], [⟨0, 1, some 1, 10, 10⟩], [⟨0, 0, 15⟩], [], 1, 1⟩ 1 2 10 Option.none
      = (true, ⟨[], [⟨0, 1, some 2, 10, 10⟩], [⟨0, 0, 15⟩], [], 1, 1⟩) := by decide

/-- C5 amended: assign_chore performs no completion check: for any
    assignment row matching the requested (chore, date) — even one already
    referenced by a completion — the call succeeds and rewrites the row to
    carry the new person and due date. -/
theorem assign_updates_despite_completion (st : Store) (c p ad : Nat) (dd : Option Nat)
    (a : Assignment) (ha : a ∈ st.assignments) (hc : a.chore_id = c)
    (hd : a.assigned_date = ad)
    (hcomp : ∃ comp ∈ st.completions, comp.assignment_id = a.id) :
    (assign_chore true st c p ad dd).1 = true
    ∧ { a with person_id := some p, due_date := dd.getD ad }
        ∈ (assign_chore true st c p ad dd).2.assignments := by
  have hex : ∃ x ∈ st.assignments, x.chore_id = c ∧ x.assigned_date = ad := ⟨a, ha, hc, hd⟩
  simp only [assign_chore]
  rw [if_pos hex]
  refine ⟨rfl, ?_⟩
  have hmem := List.mem_map_of_mem (fun y : Assignment =>
    if y.chore_id = c ∧ y.assigned_date = ad then
      { y with person_id := some p, due_date := dd.getD ad } else y) ha
  simp only at hmem
  rw [if_pos ⟨hc, hd⟩] at hmem
  exact hmem

/-- Concrete instance of assign_updates_despite_completion: reassigning the
    completed assignment of chore 1 on day 10 to person 2 with due day 12
    succeeds and produces the rewritten row. -/
theorem assign_updates_despite_completion_witness :
    (assign_chore true ⟨[], [⟨0, 1, some 1, 10, 10⟩], [⟨0, 0, 15⟩], [], 1, 1⟩
        1 2 10 (some 12)).1 = true
    ∧ (⟨0, 1, some 2, 10, 12⟩ : Assignment)
        ∈ (assign_chore true ⟨[], [⟨0, 1, some 1, 10, 10⟩], [⟨0, 0, 15⟩], [], 1, 1⟩
            1 2 10 (some 12)).2.assignments :=
  assign_updates_despite_completion ⟨[], [⟨0, 1, some 1, 10, 10⟩], [⟨0, 0, 15⟩], [], 1, 1⟩
    1 2 10 (some 12) ⟨0, 1, some 1, 10, 10⟩ (by decide) rfl rfl ⟨⟨0, 0, 15⟩, by decide, rfl⟩

/-- C6 counterexample: on the empty store, a manual assignment whose due
    date (day 5) lies strictly before its assigned date (day 10) is not
    rejected: the call succeeds and creates the record with due date 5. -/
theorem assign_due_before_assigned_counterexample :
    assign_chore true ⟨[], [], [], [], 0, 0⟩ 1 2 10 (some 5)
      = (true, ⟨[], [⟨0, 1, some 2, 10, 5⟩], [], [], 1, 0⟩) := by decide

/-- C6 amended: assign_chore performs no due-date validation: every request
    whose due date lies strictly before its assigned date succeeds, and the
    store afterwards holds a row for that (chore, date) carrying exactly the
    earlier due date. -/
theorem assign_no_due_validation (st : Store) (c p ad dd : Nat) (hlt : dd < ad) :
    (assign_chore true st c p ad (some dd)).1 = true
    ∧ ∃ a ∈ (assign_chore true st c p ad (some dd)).2.assignments,
        a.chore_id = c ∧ a.assigned_date = ad ∧ a.due_date = dd := by
  simp only [assign_chore]
  by_cases hex : ∃ a ∈ st.assignments, a.chore_id = c ∧ a.assigned_date = ad
  · rw [if_pos hex]
    refine ⟨rfl, ?_⟩
    obtain ⟨a, ha, hk⟩ := hex
    refine ⟨{ a with person_id := some p, due_date := (some dd).getD ad }, ?_, hk.1, hk.2, rfl⟩
    have hmem := List.mem_map_of_mem (fun y : Assignment =>
      if y.chore_id = c ∧ y.assigned_date = ad then
        { y with person_id := some p, due_date := (some dd).getD ad } else y) ha
    simp only at hmem
    rw [if_pos hk] at hmem
    exact hmem
  · rw [if_neg hex]
    exact ⟨rfl, _, List.mem_append_right _ (List.mem_singleton_self _), rfl, rfl, rfl⟩

/-- Concrete instance of assign_no_due_validation at due day 5 before
    assigned day 10 on the empty store. -/
theorem assign_no_due_validation_witness :
    5 < 10
    ∧ ((assign_chore true ⟨[], [], [], [], 0, 0⟩ 1 2 10 (some 5)).1 = true
      ∧ ∃ a ∈ (assign_chore true ⟨[], [], [], [], 0, 0⟩ 1 2 10 (some 5)).2.assignments,
          a.chore_id = 1 ∧ a.assigned_date = 10 ∧ a.due_date = 5) :=
  ⟨by decide, assign_no_due_validation ⟨[], [], [], [], 0, 0⟩ 1 2 10 5 (by decide)⟩

/-- C3 counterexample: a second complete on the already-completed
    assignment 0 does fail without inserting, but only as the bare boolean
    False with the store unchanged — exactly the result of completing the
    nonexistent assignment 99 — so no AlreadyCompleted error (nor any
    distinguishable failure kind) reaches the caller. -/
theorem second_complete_no_typed_error :
    mark_chore_complete true ⟨[], [⟨0, 1, some 1, 10, 10⟩], [⟨0, 0, 15⟩], [], 1, 1⟩ 0 12
      = (false, ⟨[], [⟨0, 1, some 1, 10, 10⟩], [⟨0, 0, 15⟩], [], 1, 1⟩)
    ∧ mark_chore_complete true ⟨[], [⟨0, 1, some 1, 10, 10⟩], [⟨0, 0, 15⟩], [], 1, 1⟩ 99 12
      = (false, ⟨[], [⟨0, 1, some 1, 10, 10⟩], [⟨0, 0, 15⟩], [], 1, 1⟩) := by decide

/-- C3 amended: a second complete call on an assignment that already has a
    completion fails and creates no second completion record (the store is
    returned unchanged), but the failure surfaces only as the generic
    boolean False, not as a distinguishable AlreadyCompleted error. -/
theorem second_complete_rejected (st : Store) (aid m : Nat)
    (h : ∃ c ∈ st.completions, c.assignment_id = aid) :
    mark_chore_complete true st aid m = (false, st) := by
  simp only [mark_chore_complete]
  rw [if_pos h]

/-- Concrete instance of second_complete_rejected on the already-completed
    assignment 0. -/
theorem second_complete_rejected_witness :
    mark_chore_complete true ⟨[], [⟨0, 1, some 1, 10, 10⟩], [⟨0, 0, 15⟩], [], 1, 1⟩ 0 12
      = (false, ⟨[], [⟨0, 1, some 1, 10, 10⟩], [⟨0, 0, 15⟩], [], 1, 1⟩) :=
  second_complete_rejected ⟨[], [⟨0, 1, some 1, 10, 10⟩], [⟨0, 0, 15⟩], [], 1, 1⟩ 0 12
    ⟨⟨0, 0, 15⟩, by decide, rfl⟩

/-- C4 counterexample: the reviewing person (id 5, named Kid) holds the
    child role, yet reviewing completion 0 succeeds and creates the review
    record; there is no ForbiddenRole failure on the code path. -/
theorem child_review_succeeds_counterexample :
    add_parental_review true
      ⟨[⟨5, "Kid", Role.child⟩], [⟨0, 1, some 5, 10, 10⟩], [⟨0, 0, 15⟩], [], 1, 1⟩ 0 5 true
      = (true, ⟨[⟨5, "Kid", Role.child⟩], [⟨0, 1, some 5, 10, 10⟩], [⟨0, 0, 15⟩],
          [⟨0, 5, true⟩], 1, 1⟩) := by decide

/-- C4 amended: add_parental_review performs no role check: a reviewer
    holding the child role succeeds in creating the review record whenever
    the completion exists and is unreviewed; the only reviewer gating in
    the program is the page's dropdown, which selects people by NAME (Dad
    or Mom) irrespective of stored role, so a child named Dad is offered as
    a reviewer. -/
theorem review_ignores_role (st : Store) (cid : Nat) (p : Person) (ap : Bool)
    (hp : p ∈ st.people) (hrole : p.role = Role.child)
    (hnor : ¬ ∃ r ∈ st.reviews, r.completion_id = cid)
    (hc : ∃ c ∈ st.completions, c.id = cid) :
    add_parental_review true st cid p.id ap
      = (true, { st with reviews := st.reviews ++ [⟨cid, p.id, ap⟩] })
    ∧ reviewerCandidates [⟨5, "Dad", Role.child⟩] = [⟨5, "Dad", Role.child⟩] := by
  refine ⟨?_, by decide⟩
  simp only [add_parental_review]
  rw [if_neg hnor, if_pos hc]

/-- Concrete instance of review_ignores_role: the child Kid (id 5) reviews
    completion 0 and the record is stored. -/
theorem review_ignores_role_witness :
    (add_parental_review true
        ⟨[⟨5, "Kid", Role.child⟩], [⟨0, 1, some 5, 10, 10⟩], [⟨0, 0, 15⟩], [], 1, 1⟩ 0 5 true
      = (true, ⟨[⟨5, "Kid", Role.child⟩], [⟨0, 1, some 5, 10, 10⟩], [⟨0, 0, 15⟩],
          [⟨0, 5, true⟩], 1, 1⟩))
    ∧ reviewerCandidates [⟨5, "Dad", Role.child⟩] = [⟨5, "Dad", Role.child⟩] :=
  review_ignores_role
    ⟨[⟨5, "Kid", Role.child⟩], [⟨0, 1, some 5, 10, 10⟩], [⟨0, 0, 15⟩], [], 1, 1⟩
    0 ⟨5, "Kid", Role.child⟩ true (by decide) rfl (by decide) ⟨⟨0, 0, 15⟩, by decide, rfl⟩

/- The individual report: every emitted group contains an assignment. -/

theorem mem_dedupDates (l : List Nat) (x : Nat) : x ∈ dedupDates l ↔ x ∈ l := by
  induction l with
  | nil => exact Iff.rfl
  | cons d rest ih =>
    unfold dedupDates
    by_cases hd : d ∈ rest
    · rw [if_pos hd, ih, List.mem_cons]
      exact ⟨Or.inr, fun h => h.elim (fun he => he ▸ hd) id⟩
    · rw [if_neg hd, List.mem_cons, List.mem_cons, ih]

/-- C7: every row produced by the individual report has a strictly positive
    assigned count (GROUP BY only forms a group out of at least one
    assignment row, so the division is total and never a division-by-zero
    error), its rate in tenths of a percent equals
    ROUND(completed * 100.0 / assigned, 1) computed exactly, and the
    zero-assigned clause of the contract holds (vacuously: no produced row
    has a zero assigned count). -/
theorem individual_report_rate (dbUp : Bool) (st : Store) (pid s e : Nat)
    (r : ReportRow) (hr : r ∈ get_individual_report dbUp st pid s e) :
    0 < r.assigned
    ∧ r.rate_tenths = roundHalfUpDiv (1000 * r.completed) r.assigned
    ∧ (r.assigned = 0 → r.rate_tenths = 0) := by
  cases dbUp with
  | false => exact absurd hr (List.not_mem_nil r)
  | true =>
    simp only [get_individual_report] at hr
    obtain ⟨d, hd, hfd⟩ := List.mem_map.mp hr
    have hdm := (mem_dedupDates _ _).mp hd
    obtain ⟨a, ha, had⟩ := List.mem_map.mp hdm
    have hmemf : a ∈ (st.assignments.filter (fun a =>
        decide (a.person_id = some pid ∧ s ≤ a.assigned_date ∧ a.assigned_date ≤ e))).filter
          (fun x => decide (x.assigned_date = d)) :=
      List.mem_filter.mpr ⟨ha, by simp [had]⟩
    have hpos : 0 < ((st.assignments.filter (fun a =>
        decide (a.person_id = some pid ∧ s ≤ a.assigned_date ∧ a.assigned_date ≤ e))).filter
          (fun x => decide (x.assigned_date = d))).length :=
      List.length_pos_of_mem hmemf
    rw [← hfd]
    refine ⟨hpos, rfl, ?_⟩
    intro h0
    exact absurd h0 (Nat.pos_iff_ne_zero.mp hpos)

/-- Concrete instance of individual_report_rate: person 1 has two
    assignments on day 5, one completed, so the single report row reads
    50.0 percent. -/
theorem individual_report_rate_witness :
    (⟨5, 2, 1, 500⟩ : ReportRow) ∈ get_individual_report true
      ⟨[], [⟨0, 1, some 1, 5, 5⟩, ⟨1, 2, some 1, 5, 5⟩], [⟨0, 0, 12⟩], [], 2, 1⟩ 1 0 9
    ∧ (0 < (⟨5, 2, 1, 500⟩ : ReportRow).assigned
      ∧ (⟨5, 2, 1, 500⟩ : ReportRow).rate_tenths
          = roundHalfUpDiv (1000 * (⟨5, 2, 1, 500⟩ : ReportRow).completed)
              (⟨5, 2, 1, 500⟩ : ReportRow).assigned
      ∧ ((⟨5, 2, 1, 500⟩ : ReportRow).assigned = 0
          → (⟨5, 2, 1, 500⟩ : ReportRow).rate_tenths = 0)) :=
  ⟨by decide, individual_report_rate true
    ⟨[], [⟨0, 1, some 1, 5, 5⟩, ⟨1, 2, some 1, 5, 5⟩], [⟨0, 0, 12⟩], [], 2, 1⟩ 1 0 9
    ⟨5, 2, 1, 500⟩ (by decide)⟩

/-- C8 counterexample: an unreachable persistence layer and a duplicate
    completion conflict produce identical observable results from
    mark_chore_complete — the bare boolean False with the store unchanged —
    and with the layer unreachable the people query returns the same empty
    list as it does on a live but empty roster: callers receive no typed
    failure and cannot distinguish StorageUnavailable from a Conflict or
    from an empty result. -/
theorem untyped_failures_counterexample :
    mark_chore_complete false ⟨[], [⟨0, 1, some 1, 10, 10⟩], [⟨0, 0, 15⟩], [], 1, 1⟩ 0 12
      = mark_chore_complete true ⟨[], [⟨0, 1, some 1, 10, 10⟩], [⟨0, 0, 15⟩], [], 1, 1⟩ 0 12
    ∧ get_all_people false ⟨[⟨5, "Kid", Role.child⟩], [], [], [], 0, 0⟩
      = get_all_people true ⟨[], [], [], [], 0, 0⟩ := by decide

/-- C8 amended: every mutating operation returns a bare success boolean
    rather than a created entity or a typed failure: with the persistence
    layer unreachable each returns False with the store unchanged and the
    people query returns the empty list, and a conflicting duplicate
    completion returns exactly the same observable result as the
    unreachable case, so the caller cannot distinguish failure kinds. -/
theorem ops_return_bare_booleans (st : Store) (catalog : List Chore) (d : Date)
    (c p ad aid m cid rid : Nat) (dd : Option Nat) (ap : Bool)
    (hdup : ∃ comp ∈ st.completions, comp.assignment_id = aid) :
    generate_recurring_assignments false catalog st d = (false, st)
    ∧ assign_chore false st c p ad dd = (false, st)
    ∧ mark_chore_complete false st aid m = (false, st)
    ∧ add_parental_review false st cid rid ap = (false, st)
    ∧ get_all_people false st = []
    ∧ mark_chore_complete true st aid m = mark_chore_complete false st aid m := by
  refine ⟨rfl, rfl, rfl, rfl, rfl, ?_⟩
  simp only [mark_chore_complete]
  rw [if_pos hdup]

/-- Concrete instance of ops_return_bare_booleans on the store whose
    assignment 0 is already completed. -/
theorem ops_return_bare_booleans_witness :
    generate_recurring_assignments false [] ⟨[], [⟨0, 1, some 1, 10, 10⟩], [⟨0, 0, 15⟩], [], 1, 1⟩ ⟨2024, 1, 1⟩
      = (false, ⟨[], [⟨0, 1, some 1, 10, 10⟩], [⟨0, 0, 15⟩], [], 1, 1⟩)
    ∧ assign_chore false ⟨[], [⟨0, 1, some 1, 10, 10⟩], [⟨0, 0, 15⟩], [], 1, 1⟩ 1 2 10 Option.none
      = (false, ⟨[], [⟨0, 1, some 1, 10, 10⟩], [⟨0, 0, 15⟩], [], 1, 1⟩)
    ∧ mark_chore_complete false ⟨[], [⟨0, 1, some 1, 10, 10⟩], [⟨0, 0, 15⟩], [], 1, 1⟩ 0 12
      = (false, ⟨[], [⟨0, 1, some 1, 10, 10⟩], [⟨0, 0, 15⟩], [], 1, 1⟩)
    ∧ add_parental_review false ⟨[], [⟨0, 1, some 1, 10, 10⟩], [⟨0, 0, 15⟩], [], 1, 1⟩ 0 5 true
      = (false, ⟨[], [⟨0, 1, some 1, 10, 10⟩], [⟨0, 0, 15⟩], [], 1, 1⟩)
    ∧ get_all_people false ⟨[], [⟨0, 1, some 1, 10, 10⟩], [⟨0, 0, 15⟩], [], 1, 1⟩ = []
    ∧ mark_chore_complete true ⟨[], [⟨0, 1, some 1, 10, 10⟩], [⟨0, 0, 15⟩], [], 1, 1⟩ 0 12
      = mark_chore_complete false ⟨[], [⟨0, 1, some 1, 10, 10⟩], [⟨0, 0, 15⟩], [], 1, 1⟩ 0 12 :=
  ops_return_bare_booleans ⟨[], [⟨0, 1, some 1, 10, 10⟩], [⟨0, 0, 15⟩], [], 1, 1⟩
    [] ⟨2024, 1, 1⟩ 1 2 10 0 12 0 5 Option.none true ⟨⟨0, 0, 15⟩, by decide, rfl⟩

/- Copy-from-Yesterday lemmas. -/

theorem mkCopies_all_sel (n sel : Nat) (l : List Assignment) :
    ∀ x ∈ mkCopies n sel l, x.assigned_date = sel := by
  induction l generalizing n with
  | nil => intro x hx; cases hx
  | cons a rest ih =>
    intro x hx
    rcases List.mem_cons.mp hx with h | h
    · rw [h]
    · exact ih _ x h

theorem mkCopies_proj (n sel : Nat) (l : List Assignment) :
    (mkCopies n sel l).map (fun a => (a.chore_id, a.person_id, a.assigned_date, a.due_date))
      = l.map (fun a => (a.chore_id, a.person_id, sel, sel)) := by
  induction l generalizing n with
  | nil => rfl
  | cons a rest ih => simp [mkCopies, ih]

theorem filter_sel_of_filter_ne (l : List Assignment) (sel : Nat) :
    (l.filter (fun a => decide (a.assigned_date ≠ sel))).filter
      (fun a => decide (a.assigned_date = sel)) = [] := by
  induction l with
  | nil => rfl
  | cons a rest ih =>
    by_cases h : a.assigned_date = sel <;> simp [List.filter_cons, h, ih]

theorem filter_ne_idem (l : List Assignment) (sel : Nat) :
    (l.filter (fun a => decide (a.assigned_date ≠ sel))).filter
      (fun a => decide (a.assigned_date ≠ sel))
      = l.filter (fun a => decide (a.assigned_date ≠ sel)) := by
  induction l with
  | nil => rfl
  | cons a rest ih =>
    by_cases h : a.assigned_date = sel <;> simp [List.filter_cons, h, ih]

theorem filter_prev_of_filter_ne (l : List Assignment) (sel : Nat) (h : sel - 1 ≠ sel) :
    (l.filter (fun a => decide (a.assigned_date ≠ sel))).filter
      (fun a => decide (a.assigned_date = sel - 1))
      = l.filter (fun a => decide (a.assigned_date = sel - 1)) := by
  rw [List.filter_filter]
  apply List.filter_congr
  intro a ha
  by_cases h2 : a.assigned_date = sel - 1
  · have h1 : ¬ a.assigned_date = sel := by rw [h2]; exact h
    simp [h1, h2, h]
  · simp [h2]

theorem filter_sel_mkCopies (n sel : Nat) (l : List Assignment) :
    (mkCopies n sel l).filter (fun a => decide (a.assigned_date = sel)) = mkCopies n sel l :=
  List.filter_eq_self.mpr (fun a ha => by simp [mkCopies_all_sel n sel l a ha])

theorem filter_ne_mkCopies (n sel : Nat) (l : List Assignment) :
    (mkCopies n sel l).filter (fun a => decide (a.assigned_date ≠ sel)) = [] := by
  induction l generalizing n with
  | nil => rfl
  | cons a rest ih =>
    rw [mkCopies, List.filter_cons]
    have e : (decide ((⟨n, a.chore_id, a.person_id, sel, sel⟩ : Assignment).assigned_date ≠ sel))
        = false := by simp
    rw [e]
    simp only [Bool.false_eq_true, if_false]
    exact ih _

/-- C10: Copy-from-Yesterday is a destructive replacement: afterwards the
    rows for the selected date are exactly one copy of each previous-day
    row with both dates set to the selected date (every pre-existing
    selected-date row is deleted first, completed or not), rows for all
    other dates are unchanged, and the completions and reviews tables are
    untouched. -/
theorem copy_from_yesterday_replaces (st : Store) (sel : Nat) (hpos : 0 < sel) :
    ((copy_from_yesterday true st sel).assignments.filter
        (fun a => decide (a.assigned_date = sel))).map
          (fun a => (a.chore_id, a.person_id, a.assigned_date, a.due_date))
      = (st.assignments.filter (fun a => decide (a.assigned_date = sel - 1))).map
          (fun a => (a.chore_id, a.person_id, sel, sel))
    ∧ (copy_from_yesterday true st sel).assignments.filter
        (fun a => decide (a.assigned_date ≠ sel))
      = st.assignments.filter (fun a => decide (a.assigned_date ≠ sel))
    ∧ (copy_from_yesterday true st sel).completions = st.completions
    ∧ (copy_from_yesterday true st sel).reviews = st.reviews := by
  have hne : sel - 1 ≠ sel := by omega
  simp only [copy_from_yesterday]
  refine ⟨?_, ?_, by trivial, by trivial⟩
  · rw [List.filter_append, filter_sel_of_filter_ne, List.nil_append,
      filter_sel_mkCopies, mkCopies_proj, filter_prev_of_filter_ne _ _ hne]
  · rw [List.filter_append, filter_ne_idem, filter_ne_mkCopies, List.append_nil]

/-- Concrete instance of copy_from_yesterday_replaces: day 9 holds two
    assignments, day 10 holds one completed assignment; copying onto day 10
    replaces it with copies of the two day-9 rows. -/
theorem copy_from_yesterday_replaces_witness :
    0 < 10
    ∧ (((copy_from_yesterday true
          ⟨[], [⟨0, 1, some 1, 9, 9⟩, ⟨1, 2, some 2, 9, 9⟩, ⟨2, 3, some 1, 10, 10⟩],
            [⟨0, 2, 15⟩], [], 3, 1⟩ 10).assignments.filter
            (fun a => decide (a.assigned_date = 10))).map
              (fun a => (a.chore_id, a.person_id, a.assigned_date, a.due_date))
        = (([⟨0, 1, some 1, 9, 9⟩, ⟨1, 2, some 2, 9, 9⟩, ⟨2, 3, some 1, 10, 10⟩] :
              List Assignment).filter (fun a => decide (a.assigned_date = 10 - 1))).map
              (fun a => (a.chore_id, a.person_id, 10, 10))
      ∧ (copy_from_yesterday true
          ⟨[], [⟨0, 1, some 1, 9, 9⟩, ⟨1, 2, some 2, 9, 9⟩, ⟨2, 3, some 1, 10, 10⟩],
            [⟨0, 2, 15⟩], [], 3, 1⟩ 10).assignments.filter
            (fun a => decide (a.assigned_date ≠ 10))
        = ([⟨0, 1, some 1, 9, 9⟩, ⟨1, 2, some 2, 9, 9⟩, ⟨2, 3, some 1, 10, 10⟩] :
            List Assignment).filter (fun a => decide (a.assigned_date ≠ 10))
      ∧ (copy_from_yesterday true
          ⟨[], [⟨0, 1, some 1, 9, 9⟩, ⟨1, 2, some 2, 9, 9⟩, ⟨2, 3, some 1, 10, 10⟩],
            [⟨0, 2, 15⟩], [], 3, 1⟩ 10).completions = [⟨0, 2, 15⟩]
      ∧ (copy_from_yesterday true
          ⟨[], [⟨0, 1, some 1, 9, 9⟩, ⟨1, 2, some 2, 9, 9⟩, ⟨2, 3, some 1, 10, 10⟩],
            [⟨0, 2, 15⟩], [], 3, 1⟩ 10).reviews = []) :=
  ⟨by decide, copy_from_yesterday_replaces
    ⟨[], [⟨0, 1, some 1, 9, 9⟩, ⟨1, 2, some 2, 9, 9⟩, ⟨2, 3, some 1, 10, 10⟩],
      [⟨0, 2, 15⟩], [], 3, 1⟩ 10 (by decide)⟩
